import Mathlib

/-!
Verification of the `xcover` exact-cover-with-colors package.

This file gives a shallow embedding, in Lean 4, of the Python sources
`src/xcover/solvers.py`, `src/xcover/dancing_cells.py` and
`src/xcover/dancing_cells_zdd.py`, together with theorems settling the
specification claims about them.

Modelling conventions, used throughout:

* numpy `uint64`/`uint32` values are modelled as `Nat`.  All subtractions
  performed by the runs reasoned about below subtract from a positive value,
  so truncated `Nat` subtraction agrees with the machine arithmetic there.
* numpy arrays are modelled as `List Nat`; reads are `List.getD · · 0`
  (an in-range read in every run considered) and writes are `List.set`
  (which, like a numpy in-range write, replaces the addressed cell).
* Python's generator-based `yield` is modelled by a step function on an
  explicit machine state carrying an `output` accumulator; one application of
  the step function is one iteration of the source's `while node_stack:` loop.
  A Python runtime error (popping an empty list) is modelled by an absorbing
  `err := true` flag, raised after any value already yielded was recorded.
* Python `set` objects (whose iteration order CPython leaves unspecified) are
  modelled as first-occurrence deduplicated lists.
* Python's `dict` used as the memo cache is modelled as an association list
  keyed by the signature byte string itself; the source keys the dictionary by
  `hash` of that string, which we model as injective.
-/

namespace XCover

/-! ## Problem encoder, from `src/xcover/solvers.py` -/

/-- Split a character list at every colon (the accumulator holds the current
chunk reversed), as Python's `x.split(":")` does. -/
def splitColonAux : List Char → List Char → List (List Char)
  | [], acc => [acc.reverse]
  | c :: cs, acc =>
      if c = ':' then acc.reverse :: splitColonAux cs []
      else splitColonAux cs (c :: acc)

/-- Python `x.split(":")`. -/
def splitColon (x : String) : List String :=
  (splitColonAux x.data []).map (fun l => ⟨l⟩)

/-- Python `":" in x`. -/
def hasColon (x : String) : Bool := x.data.contains ':'

/-- Python `x.split(":")[0]`. -/
def baseOf (x : String) : String := (splitColon x).headD x

/-- Python `x.split(":")[-1]`. -/
def colorOf (x : String) : String := (splitColon x).getLastD x

/-- A Python `set` built from a list, modelled as the first-occurrence
deduplicated list of its elements. -/
def setOfList (l : List String) : List String :=
  l.foldl (fun acc x => if x ∈ acc then acc else acc ++ [x]) []

/-- `items` from `solvers.py`: infer the primary and secondary item lists. -/
def items (all_opts : List String) (primary? secondary? : Option (List String))
    (colored : Bool) : List String × List String :=
  match primary?, secondary? with
  | none, none =>
      (setOfList all_opts, [])
  | none, some secondary =>
      ((setOfList all_opts).filter (fun x => ! secondary.contains x), secondary)
  | some primary, none =>
      let secondary := (setOfList all_opts).filter (fun x => ! primary.contains x)
      (primary, if colored then setOfList (secondary.map baseOf) else secondary)
  | some primary, some secondary => (primary, secondary)

/-- `color_indices` from `solvers.py`: intern color names as integers ≥ 1. -/
def color_indices (all_opts : List String) : List Nat :=
  let col_names := setOfList ((all_opts.filter hasColon).map colorOf)
  all_opts.map (fun x => if hasColon x then col_names.indexOf (colorOf x) + 1 else 0)

/-- Python `enumerate`-built dictionary `item_to_idx = {**primary_item_to_idx,
**secondary_item_to_idx}`; an entry of `secondary` overrides one of `primary`,
as the later dict wins in a Python `{**a, **b}` merge. -/
def item_to_idx (primary secondary : List String) (x : String) : Option Nat :=
  if secondary.contains x then some (primary.length + secondary.indexOf x)
  else if primary.contains x then some (primary.indexOf x)
  else none

/-- The encoded problem: the five values returned by `input_as_arrays`. -/
structure Encoded where
  options : List Nat
  options_ptr : List Nat
  colors : List Nat
  n_items : Nat
  n_secondary : Nat
deriving Repr, DecidableEq

/-- Running sums, used for the `np.cumsum` calls of the sources. -/
def cumsum : List Nat → Nat → List Nat
  | [], _ => []
  | n :: rest, acc => (acc + n) :: cumsum rest (acc + n)

/-- The list comprehension `[item_to_idx[...] for x in all_opts]`; a missing
key raises Python's `KeyError`, modelled as `Except.error`. -/
def enumOpts (primary secondary : List String) (colored : Bool) :
    List String → Except String (List Nat)
  | [] => Except.ok []
  | x :: rest =>
    let key := if colored then baseOf x else x
    match item_to_idx primary secondary key with
    | none => Except.error ("KeyError: " ++ key)
    | some i => (enumOpts primary secondary colored rest).map (fun l => i :: l)

/-- `input_as_arrays` from `solvers.py`: convert user input to array form. -/
def input_as_arrays (options : List (List String)) (primary? secondary? : Option (List String))
    (colored : Bool) : Except String Encoded :=
  let all_opts := (options.map id).flatten
  let ps := items all_opts primary? secondary? colored
  let primary := ps.1
  let secondary := ps.2
  let colors := if colored then color_indices all_opts
                else List.replicate all_opts.length 0
  let ptr := 0 :: cumsum (options.map List.length) 0
  (enumOpts primary secondary colored all_opts).map (fun enum =>
    { options := enum
      options_ptr := ptr
      colors := colors
      n_items := primary.length + secondary.length
      n_secondary := secondary.length })

/-! ## The dancing-cells matrix, from `src/xcover/dancing_cells.py` (C1 block)

The same initialisation and sparse-set primitives appear verbatim in
`dancing_cells_zdd.py`; the ZDD variant adds the `item_colorings` array, which
`algorithm_c` never touches. -/

/-- The matrix substrate: the arrays set up in the C1 initialisation blocks of
`algorithm_c` and `algorithm_z`, plus the scalar problem dimensions. -/
structure Mat where
  options : List Nat
  options_ptr : List Nat
  colors : List Nat
  n_items : Nat
  n_secondary_items : Nat
  n_data : Nat
  n_opts : Nat
  n_primary_items : Nat
  options_j : List Nat
  matrix_start_ptr : List Nat
  matrix_set : List Nat
  matrix_loc : List Nat
  matrix_size : List Nat
  matrix_active_items : List Nat
  matrix_active_items_sparse : List Nat
  matrix_active_items_len : Nat
  matrix_old_active_items_len : Nat
  item_colorings : List Nat
deriving Repr, DecidableEq

/-- `matrix_size` initialisation: one increment per node. -/
def initSizes (options : List Nat) (n_items : Nat) : List Nat :=
  options.foldl (fun sz i => sz.set i (sz.getD i 0 + 1)) (List.replicate n_items 0)

/-- `options_j` initialisation: the slice assignment
`options_j[ptr[i] : ptr[i+1]] = j` for each option, for a monotone pointer
array, lays down `ptr[j+1] - ptr[j]` copies of `j` in sequence. -/
def initOptionsJ (ptr : List Nat) (n_opts : Nat) : List Nat :=
  ((List.range n_opts).map
    (fun j => List.replicate (ptr.getD (j+1) 0 - ptr.getD j 0) j)).flatten

/-- `matrix_set` / `matrix_loc` initialisation loop, with its `counts` array. -/
def initSetLoc (options start : List Nat) (n_items n_data : Nat) :
    List Nat × List Nat :=
  let f := fun (acc : List Nat × List Nat × List Nat) (node : Nat) =>
    let i := options.getD node 0
    let val := start.getD i 0 + acc.2.2.getD i 0
    (acc.1.set val node, (acc.2.1.set node val, acc.2.2.set i (acc.2.2.getD i 0 + 1)))
  let r := (List.range n_data).foldl f
    (List.replicate n_data 0, (List.replicate n_data 0, List.replicate n_items 0))
  (r.1, r.2.1)

/-- The C1 initialisation block shared by `algorithm_c` and `algorithm_z`. -/
def initMat (e : Encoded) : Mat :=
  let n_data := e.options.length
  let n_opts := e.options_ptr.length - 1
  let n_primary := e.n_items - e.n_secondary
  let sizes := initSizes e.options e.n_items
  let start := (0 :: cumsum sizes 0).take e.n_items
  let sl := initSetLoc e.options start e.n_items n_data
  { options := e.options
    options_ptr := e.options_ptr
    colors := e.colors
    n_items := e.n_items
    n_secondary_items := e.n_secondary
    n_data := n_data
    n_opts := n_opts
    n_primary_items := n_primary
    options_j := initOptionsJ e.options_ptr n_opts
    matrix_start_ptr := start
    matrix_set := sl.1
    matrix_loc := sl.2
    matrix_size := sizes
    matrix_active_items := List.range e.n_items
    matrix_active_items_sparse := List.range e.n_items
    matrix_active_items_len := e.n_items
    matrix_old_active_items_len := e.n_items
    item_colorings := List.replicate e.n_secondary 0 }

/-- `active_insert`: insert an item at a position of the active-items set. -/
def active_insert (m : Mat) (item index : Nat) : Mat :=
  { m with
    matrix_active_items := m.matrix_active_items.set index item
    matrix_active_items_sparse := m.matrix_active_items_sparse.set item index }

/-- `deactivate_item` (C3): swap the item to the end and shrink the prefix. -/
def deactivate_item (m : Mat) (item : Nat) : Mat :=
  let end_index := m.matrix_active_items_len - 1
  let end_item := m.matrix_active_items.getD end_index 0
  let index := m.matrix_active_items_sparse.getD item 0
  let m1 := active_insert m end_item index
  let m2 := active_insert m1 item end_index
  { m2 with matrix_active_items_len := m2.matrix_active_items_len - 1 }

/-- `active_options`: the active slice of an item's column. -/
def active_options (m : Mat) (item : Nat) : List Nat :=
  (m.matrix_set.drop (m.matrix_start_ptr.getD item 0)).take (m.matrix_size.getD item 0)

/-- `remove_node`: swap a node with the last active node of its column and
shrink the column.  The four assignments happen in the source's order. -/
def remove_node (m : Mat) (node : Nat) : Mat :=
  let item := m.options.getD node 0
  let loc := m.matrix_loc.getD node 0
  let end_loc := m.matrix_start_ptr.getD item 0 + m.matrix_size.getD item 0 - 1
  let end_node := m.matrix_set.getD end_loc 0
  { m with
    matrix_set := (m.matrix_set.set loc end_node).set end_loc node
    matrix_loc := (m.matrix_loc.set end_node loc).set node end_loc
    matrix_size := m.matrix_size.set item (m.matrix_size.getD item 0 - 1) }

/-! ## `hide`, `cover`, `choose` of `algorithm_c`

`hide`'s outer loop runs over `active_options(item)`.  In the source that is a
live numpy view, but the loop body only ever calls `remove_node` on nodes of
items `iprime ≠ item`, which touches only other columns, so iterating over the
slice taken at entry is faithful.  The early `return False` aborts with the
removals already performed kept, exactly as in Python. -/

/-- The inner `for k in range(options_ptr[j], options_ptr[j+1])` loop of
`hide` in `dancing_cells.py`: remove the sibling nodes of one hidden option,
aborting (first component `false`) when about to delete the last active node
of an active primary item. -/
def hideInner (item : Nat) (initial : Bool) : Mat → List Nat → Bool × Mat
  | m, [] => (true, m)
  | m, k :: ks =>
    let iprime := m.options.getD k 0
    if iprime ≠ item ∧
        m.matrix_active_items_sparse.getD iprime 0 < m.matrix_old_active_items_len then
      if ¬ initial ∧ m.matrix_size.getD iprime 0 = 1 ∧
          m.matrix_active_items_sparse.getD iprime 0 < m.matrix_active_items_len ∧
          iprime < m.n_primary_items then
        (false, m)
      else hideInner item initial (remove_node m k) ks
    else hideInner item initial m ks

/-- The outer `for node in active_options(item)` loop of `hide` in
`dancing_cells.py`. -/
def hideNodes (item col : Nat) (initial : Bool) : Mat → List Nat → Bool × Mat
  | m, [] => (true, m)
  | m, node :: rest =>
    if col = 0 ∨ m.colors.getD node 0 ≠ col then
      let j := m.options_j.getD node 0
      let a := m.options_ptr.getD j 0
      let b := m.options_ptr.getD (j+1) 0
      match hideInner item initial m (List.range' a (b - a)) with
      | (false, m') => (false, m')
      | (true, m') => hideNodes item col initial m' rest
    else hideNodes item col initial m rest

/-- `hide` from `dancing_cells.py`: given an item and a coloring, remove the
conflicting nodes. -/
def hide (m : Mat) (item col : Nat) (initial : Bool) : Bool × Mat :=
  hideNodes item col initial m (active_options m item)

/-- The C6 loop of `cover`: deactivate the other active items of the option. -/
def coverDeactivate (item : Nat) : Mat → List Nat → Mat
  | m, [] => m
  | m, ptr :: rest =>
    let itm := m.options.getD ptr 0
    if itm ≠ item ∧
        m.matrix_active_items_sparse.getD itm 0 < m.matrix_active_items_len then
      coverDeactivate item (deactivate_item m itm) rest
    else coverDeactivate item m rest

/-- The C7 loop of `cover` in `dancing_cells.py`: hide conflicting options
item by item, aborting as soon as one `hide` fails. -/
def coverHide (item : Nat) : Mat → List Nat → Bool × Mat
  | m, [] => (true, m)
  | m, ptr :: rest =>
    let itm := m.options.getD ptr 0
    let col_hide := m.colors.getD ptr 0
    if itm ≠ item then
      if itm < m.n_primary_items ∨
          m.matrix_active_items_sparse.getD itm 0 < m.matrix_old_active_items_len then
        match hide m itm col_hide false with
        | (false, m') => (false, m')
        | (true, m') => coverHide item m' rest
      else coverHide item m rest
    else coverHide item m rest

/-- `cover` from `dancing_cells.py` (C6 and C7): returns `n_opts` and the
partially mutated matrix when a hide aborts, the covered option's index
otherwise. -/
def cover (m : Mat) (node item : Nat) : Nat × Mat :=
  let option := m.options_j.getD node 0
  let a := m.options_ptr.getD option 0
  let b := m.options_ptr.getD (option+1) 0
  let ptr_range := List.range' a (b - a)
  let m0 := { m with matrix_old_active_items_len := m.matrix_active_items_len }
  let m1 := coverDeactivate item m0 ptr_range
  match coverHide item m1 ptr_range with
  | (false, m') => (m.n_opts, m')
  | (true, m') => (option, m')

/-- `save_state` (C5) of `algorithm_c`: the sizes and the active length. -/
def save_state (m : Mat) : List Nat × Nat :=
  (m.matrix_size, m.matrix_active_items_len)

/-- `undo` (C11) of `algorithm_c`: restore sizes and active length. -/
def undo (m : Mat) (st : List Nat × Nat) : Mat :=
  { m with matrix_size := st.1, matrix_active_items_len := st.2 }

/-- The scanning loop of `choose` (C2) of `algorithm_c`, MRV heuristic with an
early out on a column of size one.  The accumulator starts at
`(n_items, n_data)` exactly as in the source. -/
def chooseLoop (m : Mat) : List Nat → Nat → Nat → Nat
  | [], chosen_item, _ => chosen_item
  | item :: rest, chosen_item, chosen_length =>
    if item < m.n_primary_items then
      let length := m.matrix_size.getD item 0
      if length < chosen_length then
        if length = 1 then item
        else chooseLoop m rest item length
      else chooseLoop m rest chosen_item chosen_length
    else chooseLoop m rest chosen_item chosen_length

/-- `choose` (C2) of `algorithm_c`. -/
def choose (m : Mat) : Nat :=
  chooseLoop m (m.matrix_active_items.take m.matrix_active_items_len) m.n_items m.n_data

/-! ## The main loop of `algorithm_c`, as a step machine

One `stepC` is one iteration of the `while node_stack:` loop.  Python stacks
grow at the right and are popped and peeked at `[-1]`; we keep the stack top
at the head of a Lean list, so a branch list created as
`list(active_options(item))` and then popped from its end is stored reversed.
`solution` is likewise kept top-first, so `yield list(solution)` emits
`solution.reverse`.  `solution.pop()` on an empty list raises `IndexError` in
Python; that sets the absorbing `err` flag here (after the yield, which has
already been delivered, is recorded). -/

/-- The full state of a suspended `algorithm_c` generator. -/
structure CState where
  m : Mat
  solution : List Nat
  node_stack : List (List Nat)
  item_stack : List Nat
  state_stack : List (List Nat × Nat)
  need_to_undo : Bool
  output : List (List Nat)
  err : Bool
deriving Repr, DecidableEq

/-- The state of `algorithm_c` just before the first loop iteration. -/
def initC (e : Encoded) : CState :=
  let m := initMat e
  { m := m
    solution := []
    node_stack := [[m.n_data]]
    item_stack := [m.n_items]
    state_stack := [save_state m]
    need_to_undo := false
    output := []
    err := false }

/-- One iteration of the `while node_stack:` loop of `algorithm_c`. -/
def stepC (s : CState) : CState :=
  if s.err then s else
  match s.node_stack with
  | [] => s
  | [] :: rest =>
      let s1 := { s with
        node_stack := rest
        state_stack := s.state_stack.tail
        item_stack := s.item_stack.tail
        need_to_undo := true }
      match s1.solution with
      | [] => s1
      | _ :: sol => { s1 with solution := sol }
  | (node :: frameRest) :: rest =>
      let m0 := if s.need_to_undo then undo s.m (s.state_stack.headD ([], 0)) else s.m
      let covres := if node < m0.n_data then cover m0 node (s.item_stack.headD 0)
                    else (m0.n_opts + 1, m0)
      let opt := covres.1
      let m1 := covres.2
      let s1 := { s with
        m := m1
        need_to_undo := false
        node_stack := frameRest :: rest }
      if opt = m1.n_opts then { s1 with need_to_undo := true }
      else
        let s2 := if opt < m1.n_opts then { s1 with solution := opt :: s1.solution } else s1
        let item := choose s2.m
        if item = s2.m.n_items then
          let s3 := { s2 with output := s2.output ++ [s2.solution.reverse] }
          match s3.solution with
          | [] => { s3 with err := true }
          | _ :: sol => { s3 with
              solution := sol
              need_to_undo := true }
        else
          let m2 := deactivate_item s2.m item
          let m3 := { m2 with matrix_old_active_items_len := m2.matrix_active_items_len }
          let m4 := (hide m3 item 0 true).2
          { s2 with
            m := m4
            item_stack := item :: s2.item_stack
            state_stack := save_state m4 :: s2.state_stack
            node_stack := (active_options m4 item).reverse :: s2.node_stack }

/-- Repeated application of a step function, with fuel. -/
def iterate (f : α → α) : Nat → α → α
  | 0, s => s
  | n + 1, s => iterate f n (f s)

/-- Run `algorithm_c` for a given number of loop iterations. -/
def runC (fuel : Nat) (e : Encoded) : CState := iterate stepC fuel (initC e)

/-- `covers` from `solvers.py`.  In Python `covers` is a generator function:
its body, including the call to `input_as_arrays`, runs only once the first
element is requested; this function models that forcing.  It returns the
yielded solutions together with the error flag. -/
def covers (options : List (List String)) (primary? secondary? : Option (List String))
    (colored : Bool) (fuel : Nat) : Except String (List (List Nat) × Bool) :=
  (input_as_arrays options primary? secondary? colored).map
    (fun e => ((runC fuel e).output, (runC fuel e).err))

/-! ## `algorithm_z`, from `src/xcover/dancing_cells_zdd.py`

The C1 initialisation, `active_insert`, `deactivate_item`, `active_options`
and `remove_node` are textually identical to `dancing_cells.py` and are shared
above.  `hide`, `cover`, `choose`, `save_state` and `undo` differ (the ZDD
variant records secondary colorings for the memo signature, returns the chosen
length from `choose`, and snapshots `item_colorings`), so they are embedded
separately below. -/

/-- The recording line of the ZDD `hide`: `item_colorings[iprime -
n_primary_items] = colors[k]` whenever `iprime` is secondary. -/
def recordColoring (m : Mat) (iprime k : Nat) : Mat :=
  if iprime ≥ m.n_primary_items then
    { m with item_colorings :=
        m.item_colorings.set (iprime - m.n_primary_items) (m.colors.getD k 0) }
  else m

/-- Inner sibling loop of `hide` in `dancing_cells_zdd.py`; identical to the
`algorithm_c` version except for the coloring record, which runs for every
visited node of a conflicting option (the early `return False` skips it). -/
def hideInnerZ (item : Nat) (initial : Bool) : Mat → List Nat → Bool × Mat
  | m, [] => (true, m)
  | m, k :: ks =>
    let iprime := m.options.getD k 0
    if iprime ≠ item ∧
        m.matrix_active_items_sparse.getD iprime 0 < m.matrix_old_active_items_len then
      if ¬ initial ∧ m.matrix_size.getD iprime 0 = 1 ∧
          m.matrix_active_items_sparse.getD iprime 0 < m.matrix_active_items_len ∧
          iprime < m.n_primary_items then
        (false, m)
      else hideInnerZ item initial (recordColoring (remove_node m k) iprime k) ks
    else hideInnerZ item initial (recordColoring m iprime k) ks

/-- Outer loop of `hide` in `dancing_cells_zdd.py`. -/
def hideNodesZ (item col : Nat) (initial : Bool) : Mat → List Nat → Bool × Mat
  | m, [] => (true, m)
  | m, node :: rest =>
    if col = 0 ∨ m.colors.getD node 0 ≠ col then
      let j := m.options_j.getD node 0
      let a := m.options_ptr.getD j 0
      let b := m.options_ptr.getD (j+1) 0
      match hideInnerZ item initial m (List.range' a (b - a)) with
      | (false, m') => (false, m')
      | (true, m') => hideNodesZ item col initial m' rest
    else hideNodesZ item col initial m rest

/-- `hide` from `dancing_cells_zdd.py`. -/
def hideZ (m : Mat) (item col : Nat) (initial : Bool) : Bool × Mat :=
  hideNodesZ item col initial m (active_options m item)

/-- The C7 loop of `cover` in `dancing_cells_zdd.py` (single merged
condition in the source). -/
def coverHideZ (item : Nat) : Mat → List Nat → Bool × Mat
  | m, [] => (true, m)
  | m, ptr :: rest =>
    let itm := m.options.getD ptr 0
    let col_hide := m.colors.getD ptr 0
    if itm ≠ item ∧ (itm < m.n_primary_items ∨
        m.matrix_active_items_sparse.getD itm 0 < m.matrix_old_active_items_len) then
      match hideZ m itm col_hide false with
      | (false, m') => (false, m')
      | (true, m') => coverHideZ item m' rest
    else coverHideZ item m rest

/-- `cover` from `dancing_cells_zdd.py` (C6 and C7). -/
def coverZ (m : Mat) (node item : Nat) : Nat × Mat :=
  let option := m.options_j.getD node 0
  let a := m.options_ptr.getD option 0
  let b := m.options_ptr.getD (option+1) 0
  let ptr_range := List.range' a (b - a)
  let m0 := { m with matrix_old_active_items_len := m.matrix_active_items_len }
  let m1 := coverDeactivate item m0 ptr_range
  match coverHideZ item m1 ptr_range with
  | (false, m') => (m.n_opts, m')
  | (true, m') => (option, m')

/-- A saved `algorithm_z` state: sizes, active length and colorings. -/
def save_stateZ (m : Mat) : List Nat × Nat × List Nat :=
  (m.matrix_size, m.matrix_active_items_len, m.item_colorings)

/-- `undo` of `algorithm_z`. -/
def undoZ (m : Mat) (st : List Nat × Nat × List Nat) : Mat :=
  { m with
    matrix_size := st.1
    matrix_active_items_len := st.2.1
    item_colorings := st.2.2 }

/-- The placeholder `null_state = (np.empty(0), u(1), np.empty(0))`. -/
def null_state : List Nat × Nat × List Nat := ([], 1, [])

/-- `choose_leftmost` of `algorithm_z`: scan for the active primary item of
lowest id, returning it with its column size, or `(n_items, n_data)`. -/
def chooseLeftmostLoop (m : Mat) : List Nat → Nat × Nat
  | [] => (m.n_items, m.n_data)
  | item :: rest =>
    if m.matrix_active_items_sparse.getD item 0 < m.matrix_active_items_len then
      (item, m.matrix_size.getD item 0)
    else chooseLeftmostLoop m rest

/-- `choose_leftmost` of `algorithm_z`. -/
def choose_leftmost (m : Mat) : Nat × Nat :=
  chooseLeftmostLoop m (List.range m.n_primary_items)

/-- The scanning loop of `choose_mrv` of `algorithm_z`. -/
def chooseMrvLoop (m : Mat) : List Nat → Nat → Nat → Nat × Nat
  | [], chosen_item, chosen_length => (chosen_item, chosen_length)
  | item :: rest, chosen_item, chosen_length =>
    if item < m.n_primary_items ∧ m.matrix_size.getD item 0 < chosen_length then
      if m.matrix_size.getD item 0 = 1 then (item, m.matrix_size.getD item 0)
      else chooseMrvLoop m rest item (m.matrix_size.getD item 0)
    else chooseMrvLoop m rest chosen_item chosen_length

/-- `choose_mrv` of `algorithm_z`. -/
def choose_mrv (m : Mat) : Nat × Nat :=
  chooseMrvLoop m (m.matrix_active_items.take m.matrix_active_items_len) m.n_items m.n_data

/-- The heuristic dispatch `choose` of `algorithm_z`. -/
def chooseZ (m : Mat) (heuristic : String) : Nat × Nat :=
  if heuristic = "leftmost" then choose_leftmost m else choose_mrv m

/-- `set_signature_bit`: set one bit in the signature byte array. -/
def set_signature_bit (sig : List Nat) (bit : Nat) : List Nat :=
  sig.set (bit / 8) (sig.getD (bit / 8) 0 ||| (1 <<< (bit % 8)))

/-- `signature` of `algorithm_z`: the bit-packed fingerprint of the residual
subproblem — one bit per active item, plus, for each *active* secondary item,
a one-hot position for its recorded coloring.  The source hashes the byte
string and keys the memo dictionary by the hash; we key by the byte list
itself, modelling the hash as injective. -/
def signature (m : Mat) (ma_len : Nat) : List Nat :=
  let n_colors := m.colors.foldl max 0
  let bytelength := 1 + (m.n_items + (n_colors + 1) * m.n_secondary_items) / 8
  (m.matrix_active_items.take ma_len).foldl
    (fun sig s =>
      let sig1 := set_signature_bit sig s
      if s ≥ m.n_primary_items then
        let y := s - m.n_primary_items
        set_signature_bit sig1 (m.n_items + (n_colors + 1) * y + m.item_colorings.getD y 0)
      else sig1)
    (List.replicate bytelength 0)

/-- Lookup in the memo cache (a Python `dict` with unique keys, modelled as
an association list). -/
def memoLookup : List (List Nat × Nat) → List Nat → Option Nat
  | [], _ => none
  | (k, v) :: rest, key => if k = key then some v else memoLookup rest key

/-- `if memo not in memo_cache: memo_cache[memo] = v`. -/
def memoInsert (c : List (List Nat × Nat)) (k : List Nat) (v : Nat) :
    List (List Nat × Nat) :=
  match memoLookup c k with
  | some _ => c
  | none => (k, v) :: c

/-- An emitted ZDD node record `(id, var, lo, hi)`. -/
structure ZRec where
  id : Nat
  var : Nat
  lo : Nat
  hi : Nat
deriving Repr, DecidableEq

/-- The full state of a suspended `algorithm_z` generator. -/
structure ZState where
  m : Mat
  solution : List Nat
  node_stack : List (List Nat)
  item_stack : List Nat
  state_stack : List (List Nat × Nat × List Nat)
  zdd_stack : List Nat
  zdd_index : Nat
  memo_stack : List (List Nat)
  memo_cache : List (List Nat × Nat)
  use_memo : Bool
  heuristic : String
  need_to_undo : Bool
  output : List ZRec
  err : Bool
deriving Repr, DecidableEq

/-- The state of `algorithm_z` just before the first loop iteration; with
memoization on, the cache is seeded with the empty-signature entry mapping to
the TRUE node `1`. -/
def initZ (e : Encoded) (use_memo : Bool) (heuristic : String) : ZState :=
  let m := initMat e
  { m := m
    solution := []
    node_stack := [[m.n_data]]
    item_stack := [m.n_items]
    state_stack := [save_stateZ m]
    zdd_stack := []
    zdd_index := 1
    memo_stack := []
    memo_cache := if use_memo then memoInsert [] (signature m 0) 1 else []
    use_memo := use_memo
    heuristic := heuristic
    need_to_undo := false
    output := []
    err := false }

/-- The memo-recording tail of the backtrack block: pop the frame's
signature off `memo_stack` and associate it with the popped `hi` when absent
from the cache.  Skipped when the backtrack already raised (a Python
exception aborts the generator before reaching this code). -/
def zMemoRecord (s : ZState) (hi : Nat) : ZState :=
  if s.err then s
  else if s.use_memo then
    match s.memo_stack with
    | [] => { s with err := true }
    | mh :: mrest =>
      { s with
        memo_stack := mrest
        memo_cache := memoInsert s.memo_cache mh hi }
  else s

/-- The backtracking (C10) block of `algorithm_z`'s main loop: pop the
frame; when a solution entry is popped as well, pop the accumulated `hi` off
the ZDD stack, emit a node if `hi > 0`, fold the new id into the parent's
accumulator, and record the frame's memo signature.  The unguarded Python
pops of `zdd_stack` (and the `zdd_stack[-1]` peek) raise on an empty list,
modelled by `err`. -/
def zBacktrack (s : ZState) (rest : List (List Nat)) : ZState :=
  let s1 := { s with
    node_stack := rest
    state_stack := s.state_stack.tail
    item_stack := s.item_stack.tail
    need_to_undo := true }
  match s1.solution with
  | [] => s1
  | sHead :: sol =>
    let s2 := { s1 with solution := sol }
    match s2.zdd_stack with
    | [] => { s2 with err := true }
    | hi :: zrest =>
      let s3 :=
        if hi > 0 then
          match zrest with
          | [] => { s2 with err := true }
          | lo :: zr2 =>
            { s2 with
              zdd_index := s2.zdd_index + 1
              output := s2.output ++ [⟨s2.zdd_index + 1, sHead, lo, hi⟩]
              zdd_stack := (s2.zdd_index + 1) :: zr2 }
        else { s2 with zdd_stack := zrest }
      zMemoRecord s3 hi

/-- The tail of the advance block of `algorithm_z`'s loop, entered once
`cover` has succeeded and the chosen option (if any) has been appended to the
solution: compute the state signature, take the memo-hit short-cut, detect a
complete solution, or choose, deactivate and hide an item and push the new
frame. -/
def zAdvanceTail (s : ZState) : ZState :=
  let to_memo := signature s.m s.m.matrix_active_items_len
  if s.use_memo ∧ (memoLookup s.memo_cache to_memo).isSome then
    { s with
      zdd_stack := (memoLookup s.memo_cache to_memo).getD 0 :: s.zdd_stack
      node_stack := [] :: s.node_stack
      state_stack := null_state :: s.state_stack
      memo_stack := to_memo :: s.memo_stack
      item_stack := s.m.n_data :: s.item_stack }
  else
    let il := chooseZ s.m s.heuristic
    let s3 := { s with
      zdd_stack := 0 :: s.zdd_stack
      memo_stack := if s.use_memo then to_memo :: s.memo_stack else s.memo_stack }
    if il.1 = s3.m.n_items then
      { s3 with
        zdd_stack := 1 :: s3.zdd_stack.tail
        node_stack := [] :: s3.node_stack
        state_stack := null_state :: s3.state_stack
        item_stack := il.1 :: s3.item_stack }
    else
      let m2 := deactivate_item s3.m il.1
      let m3 := { m2 with matrix_old_active_items_len := m2.matrix_active_items_len }
      let m4 := (hideZ m3 il.1 0 true).2
      { s3 with
        m := m4
        item_stack := il.1 :: s3.item_stack
        state_stack := (if il.2 = 1 then null_state else save_stateZ m4) :: s3.state_stack
        node_stack := (active_options m4 il.1).reverse :: s3.node_stack }

/-- One iteration of the `while node_stack:` loop of `algorithm_z`.  The
stack conventions are those of `stepC`. -/
def stepZ (s : ZState) : ZState :=
  if s.err then s else
  match s.node_stack with
  | [] => s
  | [] :: rest => zBacktrack s rest
  | (node :: frameRest) :: rest =>
      let m0 := if s.need_to_undo then undoZ s.m (s.state_stack.headD null_state) else s.m
      let covres := if node = m0.n_data then (m0.n_opts + 1, m0)
                    else coverZ m0 node (s.item_stack.headD 0)
      let s1 := { s with
        m := covres.2
        need_to_undo := false
        node_stack := frameRest :: rest }
      if covres.1 = s1.m.n_opts then { s1 with need_to_undo := true }
      else zAdvanceTail
        (if covres.1 < s1.m.n_opts then { s1 with solution := covres.1 :: s1.solution } else s1)

/-- Run `algorithm_z` for a given number of loop iterations. -/
def runZ (fuel : Nat) (e : Encoded) (use_memo : Bool) (heuristic : String) : ZState :=
  iterate stepZ fuel (initZ e use_memo heuristic)

/-! ## The family of option sets denoted by an emitted ZDD node stream

Convention of `src/xcover/zdd_utils.py` (`to_zdd_algorithms` / `to_oxidd`):
records are consumed in stream order, each referring to already-seen ids, with
reserved ids `0` (the empty family) and `1` (the unit family `{∅}`); the root
is the node built from the *last* record, and an empty stream denotes the
empty family. -/

/-- Look up the family attached to an id in the table built so far. -/
def famLookup : List (Nat × List (List Nat)) → Nat → List (List Nat)
  | [], _ => []
  | (i, fam) :: rest, key => if i = key then fam else famLookup rest key

/-- Fold the stream into a table mapping each emitted id to its family:
`fam(id) = fam(lo) ∪ { {var} ∪ S : S ∈ fam(hi) }`. -/
def zddTable (recs : List ZRec) : List (Nat × List (List Nat)) :=
  recs.foldl
    (fun tbl r =>
      tbl ++ [(r.id, famLookup tbl r.lo ++ (famLookup tbl r.hi).map (fun s => r.var :: s))])
    [(0, []), (1, [[]])]

/-- The family of option-index sets denoted by a ZDD node stream. -/
def zddDenotation (recs : List ZRec) : List (List Nat) :=
  match recs.getLast? with
  | none => []
  | some r => famLookup (zddTable recs) r.id

/-- Modelled from the spec: `covers_zdd` is exported by the package
(`src/xcover/__init__.py` imports it from `.solvers`) but its definition is
absent from `src/xcover/solvers.py`.  Per spec §6 it takes the option lists
(with the usual `primary` / `secondary` / `colored` arguments) plus a
`use_memo` flag and a `heuristic` flag, and returns the lazy sequence of ZDD
node records that `algorithm_z` emits for the encoded problem; like `covers`
it is a generator, modelled by its forcing. -/
def covers_zdd (options : List (List String)) (primary? secondary? : Option (List String))
    (colored : Bool) (use_memo : Bool) (heuristic : String) (fuel : Nat) :
    Except String (List ZRec) :=
  (input_as_arrays options primary? secondary? colored).map
    (fun e => (runZ fuel e use_memo heuristic).output)

/-! ## Observation helpers used by the claim statements -/

/-- How many options of a solution `S` (a list of option indices) contain the
item token `item` in the user-level option lists. -/
def solutionCoverCount (options : List (List String)) (S : List Nat) (item : String) : Nat :=
  S.countP (fun j => (options.getD j []).contains item)

/-- The distinct color names given to the secondary item `item` by the options
of a solution `S`, in first-occurrence order. -/
def solutionColors (options : List (List String)) (S : List Nat) (item : String) :
    List String :=
  setOfList (((S.map (fun j =>
    (options.getD j []).filter (fun t => hasColon t && (baseOf t == item)))).flatten).map colorOf)

/-- Whether an `Except` value is an error. -/
def isErr : Except String α → Bool
  | Except.error _ => true
  | Except.ok _ => false

/-! ## Invariants of the emitted ZDD record stream -/

/-- The default record used for out-of-range `getD` reads on record lists. -/
def zrec0 : ZRec := ⟨0, 0, 0, 0⟩

/-- Ids are consecutive in emission order: the k-th record (0-based) has id
`k + 2`. -/
def zddIdsConsecutive (out : List ZRec) : Prop :=
  ∀ k, k < out.length → (out.getD k zrec0).id = k + 2

/-- Every emitted record has `lo < id`, `hi < id` and `hi ≠ 0`. -/
def zddRecBounds (out : List ZRec) : Prop :=
  ∀ r ∈ out, r.lo < r.id ∧ r.hi < r.id ∧ r.hi ≠ 0

/-- The stream invariant maintained by every `algorithm_z` loop iteration,
on the four fields it constrains: `zdd_index` counts the emitted records, ids
are consecutive from 2, each record's children precede it, and every ZDD id
held on the stack or in the memo cache is at most `zdd_index`. -/
def zinv4 (out : List ZRec) (idx : Nat) (stk : List Nat)
    (cache : List (List Nat × Nat)) : Prop :=
  idx = out.length + 1 ∧
  zddIdsConsecutive out ∧
  zddRecBounds out ∧
  (∀ v ∈ stk, v ≤ idx) ∧
  (∀ p ∈ cache, p.2 ≤ idx)

/-- The stream invariant, as a predicate on the machine state. -/
def ZInv (s : ZState) : Prop :=
  zinv4 s.output s.zdd_index s.zdd_stack s.memo_cache

deriving instance DecidableEq for Except

/-! ## Sparse-set mutation model, for the save/undo claim

The search mutates the substrate only through `remove_node` and
`deactivate_item` (both `cover` and `hide` bottom out in them), so a
mutation sequence between a snapshot and its `undo` is modelled as a list of
these two primitive operations. -/

/-- A primitive substrate mutation. -/
inductive Mut where
  | rem : Nat → Mut
  | deact : Nat → Mut
deriving Repr, DecidableEq

/-- Apply one primitive mutation. -/
def applyMut (m : Mat) : Mut → Mat
  | Mut.rem k => remove_node m k
  | Mut.deact i => deactivate_item m i

/-- Apply a mutation sequence left to right. -/
def applyMuts (m : Mat) (ops : List Mut) : Mat := ops.foldl applyMut m

/-- Validity of one mutation in a given state: `remove_node` targets a node
that is currently active in its column (its `loc` lies in the active prefix
and the sparse-set inverse property holds there), `deactivate_item` targets a
currently active item.  These are exactly the circumstances in which the
search engine invokes the primitives. -/
def validMut (m : Mat) : Mut → Prop
  | Mut.rem k =>
      let i := m.options.getD k 0
      1 ≤ m.matrix_size.getD i 0 ∧
      m.matrix_start_ptr.getD i 0 ≤ m.matrix_loc.getD k 0 ∧
      m.matrix_loc.getD k 0 < m.matrix_start_ptr.getD i 0 + m.matrix_size.getD i 0 ∧
      m.matrix_set.getD (m.matrix_loc.getD k 0) 0 = k
  | Mut.deact i =>
      1 ≤ m.matrix_active_items_len ∧
      m.matrix_active_items_sparse.getD i 0 < m.matrix_active_items_len ∧
      m.matrix_active_items.getD (m.matrix_active_items_sparse.getD i 0) 0 = i

/-- Validity of a whole mutation sequence, each step in the state produced by
the previous ones. -/
def validMuts (m : Mat) : List Mut → Prop
  | [] => True
  | op :: ops => validMut m op ∧ validMuts (applyMut m op) ops

/-- The substrate geometry assumed of the snapshot state: column regions fit
in the node array and are pairwise disjoint, and the active-items prefix fits
in the item arrays.  `initMat` establishes this for a well-formed encoding. -/
def colGeometry (m : Mat) : Prop :=
  (∀ i, i < m.matrix_size.length →
    m.matrix_start_ptr.getD i 0 + m.matrix_size.getD i 0 ≤ m.matrix_set.length) ∧
  (∀ i, i < m.matrix_size.length → ∀ j, j < m.matrix_size.length → i ≠ j →
    m.matrix_start_ptr.getD i 0 + m.matrix_size.getD i 0 ≤ m.matrix_start_ptr.getD j 0 ∨
    m.matrix_start_ptr.getD j 0 + m.matrix_size.getD j 0 ≤ m.matrix_start_ptr.getD i 0) ∧
  m.matrix_active_items_len ≤ m.matrix_active_items.length

/-- The active-items prefix. -/
def activePrefix (m : Mat) : List Nat :=
  m.matrix_active_items.take m.matrix_active_items_len

/-- The window of `b` cells of a list starting at position `a`; `active_options`
is `seg m.matrix_set start size`. -/
def seg (l : List Nat) (a b : Nat) : List Nat := (l.drop a).take b

/-- What a valid mutation sequence preserves, relative to the snapshot state
`m0`: the immutable arrays and array lengths, monotonically shrinking sizes
and active length, and — the key dancing-cells property — each column's
window at its *snapshot* width, and the active-items prefix at its snapshot
length, as permutations.  (`matrix_loc` and `matrix_active_items_sparse` are
deliberately untracked: subsequent validity is a hypothesis at each
intermediate state, not derived.) -/
def MutFrame (m0 m : Mat) : Prop :=
  m.options = m0.options ∧
  m.matrix_start_ptr = m0.matrix_start_ptr ∧
  m.matrix_set.length = m0.matrix_set.length ∧
  m.matrix_size.length = m0.matrix_size.length ∧
  m.matrix_active_items.length = m0.matrix_active_items.length ∧
  (∀ i : Nat, m.matrix_size.getD i 0 ≤ m0.matrix_size.getD i 0) ∧
  m.matrix_active_items_len ≤ m0.matrix_active_items_len ∧
  (∀ i : Nat,
    (seg m.matrix_set (m0.matrix_start_ptr.getD i 0) (m0.matrix_size.getD i 0)).Perm
      (seg m0.matrix_set (m0.matrix_start_ptr.getD i 0) (m0.matrix_size.getD i 0))) ∧
  (m.matrix_active_items.take m0.matrix_active_items_len).Perm
    (m0.matrix_active_items.take m0.matrix_active_items_len)

/-! ## Helper lemmas -/

/-- Mapping over an `Except` does not change whether it is an error. -/
theorem isErr_map (f : α → β) (e : Except String α) : isErr (e.map f) = isErr e := by
  cases e <;> rfl

/-- Membership in the fold underlying `setOfList`. -/
theorem mem_setOfList_foldl (l : List String) (acc : List String) (x : String) :
    x ∈ l.foldl (fun acc x => if x ∈ acc then acc else acc ++ [x]) acc ↔
      x ∈ acc ∨ x ∈ l := by
  induction l generalizing acc with
  | nil => simp
  | cons y ys ih =>
      simp only [List.foldl_cons, ih, List.mem_cons]
      by_cases hy : y ∈ acc
      · simp only [if_pos hy]
        constructor
        · rintro (h | h)
          · exact Or.inl h
          · exact Or.inr (Or.inr h)
        · rintro (h | h | h)
          · exact Or.inl h
          · exact Or.inl (h ▸ hy)
          · exact Or.inr h
      · simp only [if_neg hy, List.mem_append, List.mem_singleton]
        tauto

/-- `setOfList` has exactly the members of its argument. -/
theorem mem_setOfList (l : List String) (x : String) : x ∈ setOfList l ↔ x ∈ l := by
  simp [setOfList, mem_setOfList_foldl]

/-- If some token of the list has no id, the enumeration raises `KeyError`. -/
theorem enumOpts_isErr (primary secondary : List String) (colored : Bool)
    (l : List String) (x : String) (hx : x ∈ l)
    (hkey : item_to_idx primary secondary (if colored then baseOf x else x) = none) :
    isErr (enumOpts primary secondary colored l) = true := by
  induction l with
  | nil => cases hx
  | cons y ys ih =>
      simp only [enumOpts]
      cases hyk : item_to_idx primary secondary (if colored then baseOf y else y) with
      | none => rfl
      | some i =>
          rcases List.mem_cons.mp hx with h | h
          · subst h
            rw [hyk] at hkey
            cases hkey
          · rw [isErr_map]
            exact ih h

/-- With both item lists supplied, an option token whose key is in neither
list makes the encoding raise. -/
theorem input_as_arrays_isErr (options : List (List String)) (primary secondary : List String)
    (colored : Bool) (opt : List String) (x : String)
    (h1 : opt ∈ options) (h2 : x ∈ opt)
    (hp : primary.contains (if colored then baseOf x else x) = false)
    (hs : secondary.contains (if colored then baseOf x else x) = false) :
    isErr (input_as_arrays options (some primary) (some secondary) colored) = true := by
  have hx : x ∈ (options.map id).flatten := by
    rw [List.map_id]
    exact List.mem_flatten.mpr ⟨opt, h1, h2⟩
  have hp' : (if colored then baseOf x else x) ∉ primary := by simpa using hp
  have hs' : (if colored then baseOf x else x) ∉ secondary := by simpa using hs
  have hkey : item_to_idx primary secondary (if colored then baseOf x else x) = none := by
    simp [item_to_idx, hp', hs']
  simp only [input_as_arrays, items, isErr_map]
  exact enumOpts_isErr primary secondary colored _ x hx hkey

/-! ## Claim theorems -/

/-- C1 is a code bug.  The MRV `choose` of `algorithm_c` initialises its
best-so-far column length to `n_data`, so a primary item whose column holds
every node is never selectable.  On `covers([["a"]])` the solver therefore
yields the empty solution — which covers the primary item `"a"` zero times,
not exactly once — even though the one-option solution `[0]` covers it
exactly once; the unguarded `solution.pop()` then raises `IndexError`. -/
theorem c1_empty_solution_misses_primary :
    covers [["a"]] none none false 10 = Except.ok ([[]], true) ∧
    solutionCoverCount [["a"]] [] "a" = 0 ∧
    solutionCoverCount [["a"]] [0] "a" = 1 :=
  ⟨by rfl, by rfl, by rfl⟩

/-- C2 is a code bug.  The encoder performs no duplicate-item check (the spec
lists "duplicate item in same option" as an input-shape error), so an option
naming the same secondary item with two colors is encoded unchecked, and
`covers` yields it as a solution: on `[["p", "x:A", "x:B"]]` the single
yielded solution `[0]` gives the secondary item `x` the two distinct colors
`A` and `B`, violating the at-most-one-color property. -/
theorem c2_two_colors_on_one_secondary :
    covers [["p", "x:A", "x:B"]] (some ["p"]) (some ["x"]) true 20 =
      Except.ok ([[0]], false) ∧
    solutionColors [["p", "x:A", "x:B"]] [0] "x" = ["A", "B"] :=
  ⟨by rfl, by rfl⟩

/-- C3 is a code bug.  The memo signature records color constraints only for
*active* secondary items, so two residual states that differ in the color
fixed on an already-deactivated secondary item get the same signature.  On
the problem below (primary `p1, p2`, secondary `s`), `covers` yields the three
solutions `{1,3}, {0,2}, {0,3}`, and `algorithm_z` without memoization denotes
the same family, but with memoization (either heuristic) the branch that
colors `s` with `B` caches the subproblem `{p2 active}`, and the branch that
colors `s` with `A` reuses it, losing the solution `{0,2}`. -/
theorem c3_memo_cache_loses_solution :
    covers [["p1", "s:A"], ["p1", "s:B"], ["p2", "s:A"], ["p2"]]
        (some ["p1", "p2"]) (some ["s"]) true 30 =
      Except.ok ([[1, 3], [0, 2], [0, 3]], false) ∧
    (covers_zdd [["p1", "s:A"], ["p1", "s:B"], ["p2", "s:A"], ["p2"]]
        (some ["p1", "p2"]) (some ["s"]) true true "leftmost" 30).map zddDenotation =
      Except.ok [[1, 3], [0, 3]] ∧
    (covers_zdd [["p1", "s:A"], ["p1", "s:B"], ["p2", "s:A"], ["p2"]]
        (some ["p1", "p2"]) (some ["s"]) true true "mrv" 30).map zddDenotation =
      Except.ok [[1, 3], [0, 3]] ∧
    (covers_zdd [["p1", "s:A"], ["p1", "s:B"], ["p2", "s:A"], ["p2"]]
        (some ["p1", "p2"]) (some ["s"]) true false "leftmost" 30).map zddDenotation =
      Except.ok [[1, 3], [0, 2], [0, 3]] ∧
    (([[1, 3], [0, 2], [0, 3]] : List (List ℕ)).map List.toFinset).toFinset ≠
      (([[1, 3], [0, 3]] : List (List ℕ)).map List.toFinset).toFinset :=
  ⟨by rfl, by rfl, by rfl, by rfl, by decide⟩

/-- C9 is a code bug.  With zero primary items (every item secondary) the
first loop iteration of `algorithm_c` reaches the yield with an *empty*
solution prefix, and the unguarded `solution.pop()` right after the yield
raises `IndexError`: the run below yields `[]` and then errors within the
very first iteration (fuel 1), refuting both the non-empty-prefix claim and
the never-raises claim. -/
theorem c9_pop_raises_on_all_secondary :
    covers [["x"]] none (some ["x"]) false 1 = Except.ok ([[]], true) ∧
    covers [["x"]] none (some ["x"]) false 10 = Except.ok ([[]], true) :=
  ⟨by rfl, by rfl⟩

/-- C5 counterexample: the triple `(var, lo, hi)` is not unique across the
emitted stream.  On primary items `a, b, c` with options `[a], [b], [a,b],
[c]` (leftmost heuristic, no memoization), the option `[c]` closes a solution
in two unrelated branches and is emitted twice as `(var 3, lo 0, hi 1)` —
records with ids 2 and 4. -/
theorem c5_shared_triple_counterexample :
    (covers_zdd [["a"], ["b"], ["a", "b"], ["c"]] none none false false "leftmost" 40).map
        (fun out => out.map (fun r => (r.var, r.lo, r.hi))) =
      Except.ok [(3, 0, 1), (2, 0, 2), (3, 0, 1), (1, 0, 4), (0, 3, 5)] ∧
    ¬ ([(3, 0, 1), (2, 0, 2), (3, 0, 1), (1, 0, 4), (0, 3, 5)] :
        List (Nat × Nat × Nat)).Nodup :=
  ⟨by rfl, by decide⟩

/-- C6 (spec-modelled): forcing `covers_zdd` on any input whose encoding
succeeds yields exactly the record stream of `algorithm_z` on the encoded
problem, for any `use_memo` and `heuristic` flags. -/
theorem c6_covers_zdd_is_algorithm_z (options : List (List String))
    (primary? secondary? : Option (List String)) (colored use_memo : Bool)
    (heuristic : String) (fuel : Nat) (e : Encoded)
    (h : input_as_arrays options primary? secondary? colored = Except.ok e) :
    covers_zdd options primary? secondary? colored use_memo heuristic fuel =
      Except.ok ((runZ fuel e use_memo heuristic).output) := by
  unfold covers_zdd
  rw [h]
  rfl

/-- Witness for C6 at a concrete input. -/
theorem c6_covers_zdd_is_algorithm_z_witness :
    covers_zdd [["a"]] none none false true "mrv" 10 =
      Except.ok ((runZ 10 ⟨[0], [0, 1], [0], 1, 0⟩ true "mrv").output) :=
  c6_covers_zdd_is_algorithm_z [["a"]] none none false true "mrv" 10 _ (by rfl)

/-- C7 counterexample: an empty color string is not an encoding error.  On
`[["p", "x:"]]` with `colored=True` the token `x:` has the empty color
string; the encoding succeeds (the empty string is interned as the ordinary
color 1) and the solve runs to completion without any error. -/
theorem c7_empty_color_accepted :
    input_as_arrays [["p", "x:"]] (some ["p"]) (some ["x"]) true =
      Except.ok ⟨[0, 1], [0, 2], [0, 1], 2, 1⟩ ∧
    covers [["p", "x:"]] (some ["p"]) (some ["x"]) true 20 =
      Except.ok ([[0]], false) :=
  ⟨by rfl, by rfl⟩

/-- C7 (amended): when both `primary` and `secondary` are supplied and some
option lists a token whose key (the part before the colon, for colored
solves) is in neither list, the encoding raises a `KeyError`; because
`covers` is a generator the error surfaces when the first solution is
requested, not at the call itself.  An empty color string is not an error
(see the counterexample). -/
theorem c7_unknown_item_errors (options : List (List String))
    (primary secondary : List String) (colored : Bool) (fuel : Nat)
    (opt : List String) (x : String) (h1 : opt ∈ options) (h2 : x ∈ opt)
    (hp : primary.contains (if colored then baseOf x else x) = false)
    (hs : secondary.contains (if colored then baseOf x else x) = false) :
    isErr (covers options (some primary) (some secondary) colored fuel) = true := by
  unfold covers
  rw [isErr_map]
  exact input_as_arrays_isErr options primary secondary colored opt x h1 h2 hp hs

/-- Witness for the amended C7 at a concrete input with an unknown item. -/
theorem c7_unknown_item_errors_witness :
    isErr (covers [["z"]] (some ["p"]) (some ["q"]) false 5) = true :=
  c7_unknown_item_errors [["z"]] ["p"] ["q"] false 5 ["z"] "z"
    (by decide) (by decide) (by rfl) (by rfl)

/-- C10: when both `primary` and `secondary` are omitted, `items` declares
every token occurring in any option primary and the secondary list empty, and
any successful encoding through `covers`'s `input_as_arrays` has zero
secondary items. -/
theorem c10_all_items_primary_by_default :
    (∀ (all_opts : List String) (colored : Bool),
      (items all_opts none none colored).2 = [] ∧
      ∀ x, x ∈ (items all_opts none none colored).1 ↔ x ∈ all_opts) ∧
    (∀ (options : List (List String)) (colored : Bool) (e : Encoded),
      input_as_arrays options none none colored = Except.ok e → e.n_secondary = 0) := by
  constructor
  · intro all_opts colored
    exact ⟨rfl, fun x => mem_setOfList all_opts x⟩
  · intro options colored e h
    simp only [input_as_arrays, items] at h
    cases henum : enumOpts (setOfList ((options.map id).flatten)) [] colored
        ((options.map id).flatten) with
    | error msg => rw [henum] at h; cases h
    | ok l =>
        rw [henum] at h
        cases h
        rfl

/-- Witness for C10 at a concrete input. -/
theorem c10_all_items_primary_by_default_witness :
    (⟨[0], [0, 1], [0], 1, 0⟩ : Encoded).n_secondary = 0 :=
  c10_all_items_primary_by_default.2 [["a"]] false _ (by rfl)

/-! ## Preservation of the ZDD stream invariant -/

/-- A value found in the memo cache obeys the cache-wide bound. -/
theorem memoLookup_le {c : List (List Nat × Nat)} {k : List Nat} {v n : Nat}
    (h : memoLookup c k = some v) (hb : ∀ p ∈ c, p.2 ≤ n) : v ≤ n := by
  induction c with
  | nil => simp [memoLookup] at h
  | cons p rest ih =>
      obtain ⟨pk, pv⟩ := p
      simp only [memoLookup] at h
      split at h
      · cases h
        exact hb (pk, v) (List.mem_cons_self _ _)
      · exact ih h (fun q hq => hb q (List.mem_cons_of_mem _ hq))

/-- Inserting a bounded value keeps the cache bounded. -/
theorem memoInsert_le {c : List (List Nat × Nat)} {k : List Nat} {v n : Nat}
    (hb : ∀ p ∈ c, p.2 ≤ n) (hv : v ≤ n) :
    ∀ p ∈ memoInsert c k v, p.2 ≤ n := by
  intro p hp
  unfold memoInsert at hp
  split at hp
  · exact hb p hp
  · rcases List.mem_cons.mp hp with h | h
    · subst h; exact hv
    · exact hb p h

/-- Pushing a bounded id preserves the invariant. -/
theorem zinv4_push {out idx stk cache} (h : zinv4 out idx stk cache) {v : Nat}
    (hv : v ≤ idx) : zinv4 out idx (v :: stk) cache := by
  obtain ⟨h1, h2, h3, h4, h5⟩ := h
  refine ⟨h1, h2, h3, ?_, h5⟩
  intro w hw
  rcases List.mem_cons.mp hw with h | h
  · exact h ▸ hv
  · exact h4 w h

/-- Dropping the top of the stack preserves the invariant. -/
theorem zinv4_pop {out idx hi stk cache} (h : zinv4 out idx (hi :: stk) cache) :
    zinv4 out idx stk cache := by
  obtain ⟨h1, h2, h3, h4, h5⟩ := h
  exact ⟨h1, h2, h3, fun w hw => h4 w (List.mem_cons_of_mem _ hw), h5⟩

/-- Inserting the popped `hi` into the memo cache preserves the invariant. -/
theorem zinv4_insert {out idx stk cache} (h : zinv4 out idx stk cache)
    {k : List Nat} {v : Nat} (hv : v ≤ idx) :
    zinv4 out idx stk (memoInsert cache k v) := by
  obtain ⟨h1, h2, h3, h4, h5⟩ := h
  exact ⟨h1, h2, h3, h4, memoInsert_le h5 hv⟩

/-- Emitting a record: the new id is `idx + 1`, its children are the popped
`hi` and the parent's accumulator `lo`, both already on the stack and hence
bounded; the new id replaces the parent's accumulator. -/
theorem zinv4_emit {out idx hi lo zr2 cache} (v : Nat)
    (h : zinv4 out idx (hi :: lo :: zr2) cache) (hhi : 0 < hi) :
    zinv4 (out ++ [⟨idx + 1, v, lo, hi⟩]) (idx + 1) ((idx + 1) :: zr2) cache := by
  obtain ⟨h1, h2, h3, h4, h5⟩ := h
  have hhi' : hi ≤ idx := h4 hi (List.mem_cons_self _ _)
  have hlo : lo ≤ idx := h4 lo (List.mem_cons_of_mem _ (List.mem_cons_self _ _))
  refine ⟨?_, ?_, ?_, ?_, ?_⟩
  · simp [h1]
  · intro k hk
    simp only [List.length_append, List.length_singleton] at hk
    rcases Nat.lt_or_ge k out.length with hlt | hge
    · rw [List.getD_append _ _ _ _ hlt]
      exact h2 k hlt
    · have hk' : k = out.length := Nat.le_antisymm (Nat.lt_succ_iff.mp hk) hge
      subst hk'
      rw [List.getD_append_right _ _ _ _ (Nat.le_refl _), Nat.sub_self]
      simp [h1]
  · intro r hr
    rcases List.mem_append.mp hr with h | h
    · exact h3 r h
    · rcases List.mem_singleton.mp h with rfl
      refine ⟨Nat.lt_succ_of_le hlo, Nat.lt_succ_of_le hhi', ?_⟩
      exact Nat.pos_iff_ne_zero.mp hhi
  · intro w hw
    rcases List.mem_cons.mp hw with h | h
    · exact h ▸ Nat.le_refl _
    · exact Nat.le_succ_of_le (h4 w (List.mem_cons_of_mem _ (List.mem_cons_of_mem _ h)))
  · intro p hp
    exact Nat.le_succ_of_le (h5 p hp)

/-- The memo-recording tail preserves the stream invariant when the recorded
id is bounded. -/
theorem zinv_zMemoRecord (s : ZState) (hi : Nat) (h : ZInv s)
    (hhi : hi ≤ s.zdd_index) : ZInv (zMemoRecord s hi) := by
  unfold ZInv at h ⊢
  unfold zMemoRecord
  split
  · exact h
  · split
    · split
      · exact h
      · exact zinv4_insert h hhi
    · exact h

/-- The backtracking block preserves the stream invariant. -/
theorem zinv_backtrack (s : ZState) (rest : List (List Nat)) (h : ZInv s) :
    ZInv (zBacktrack s rest) := by
  unfold ZInv at h
  unfold zBacktrack
  dsimp only
  rcases hsol : s.solution with _ | ⟨sHead, sol⟩
  · exact h
  · dsimp only
    rcases hstk : s.zdd_stack with _ | ⟨hi, zrest⟩
    · dsimp only
      rw [hstk] at h
      exact h
    · dsimp only
      rw [hstk] at h
      have hhi0 : hi ≤ s.zdd_index := h.2.2.2.1 hi (List.mem_cons_self _ _)
      by_cases hhi : hi > 0
      · rw [if_pos hhi]
        rcases hzr : zrest with _ | ⟨lo, zr2⟩
        · subst hzr
          exact zinv_zMemoRecord _ hi h hhi0
        · subst hzr
          exact zinv_zMemoRecord _ hi (zinv4_emit sHead h hhi) (Nat.le_succ_of_le hhi0)
      · rw [if_neg hhi]
        exact zinv_zMemoRecord _ hi (zinv4_pop h) hhi0

/-- The advance-tail block preserves the stream invariant: whichever branch
is taken, the only change to the constrained fields is a push of `0`, of `1`,
or of a cached id, all bounded by `zdd_index`. -/
theorem zinv_zAdvanceTail (s : ZState) (h : ZInv s) : ZInv (zAdvanceTail s) := by
  unfold ZInv at h ⊢
  unfold zAdvanceTail
  dsimp only
  split
  · next hmemo =>
    refine zinv4_push h ?_
    obtain ⟨hum, hsome⟩ := hmemo
    obtain ⟨v, hv⟩ := Option.isSome_iff_exists.mp hsome
    rw [hv]
    exact memoLookup_le hv h.2.2.2.2
  · split
    · refine zinv4_push h ?_
      have h1 := h.1
      omega
    · exact zinv4_push h (Nat.zero_le _)

/-- One loop iteration of `algorithm_z` preserves the stream invariant. -/
theorem zinv_stepZ (s : ZState) (h : ZInv s) : ZInv (stepZ s) := by
  unfold stepZ
  split
  · exact h
  · split
    · exact h
    · exact zinv_backtrack s _ h
    · next node frameRest rest _ =>
      dsimp only
      repeat' split
      all_goals first
        | exact h
        | exact zinv_zAdvanceTail _ h

/-- Iterating an invariant-preserving step preserves the invariant. -/
theorem zinv_iterate (n : Nat) (s : ZState) (h : ZInv s) : ZInv (iterate stepZ n s) := by
  induction n generalizing s with
  | zero => exact h
  | succ n ih => exact ih _ (zinv_stepZ s h)

/-- The initial `algorithm_z` state satisfies the stream invariant. -/
theorem zinv_initZ (e : Encoded) (use_memo : Bool) (heuristic : String) :
    ZInv (initZ e use_memo heuristic) := by
  refine ⟨rfl, ?_, ?_, ?_, ?_⟩
  · intro k hk
    cases hk
  · intro r hr
    cases hr
  · intro v hv
    cases hv
  · intro p hp
    unfold initZ at hp
    dsimp only at hp
    cases use_memo with
    | false => cases hp
    | true =>
        simp only [memoInsert, memoLookup] at hp
        rcases List.mem_singleton.mp hp with rfl
        exact Nat.le_refl _

/-- Every reachable `algorithm_z` state satisfies the stream invariant. -/
theorem zinv_runZ (fuel : Nat) (e : Encoded) (use_memo : Bool) (heuristic : String) :
    ZInv (runZ fuel e use_memo heuristic) :=
  zinv_iterate fuel _ (zinv_initZ e use_memo heuristic)

/-- C4: in the record stream emitted by `algorithm_z` — for every encoded
input, every heuristic string and with or without memoization — the k-th
emitted record (0-based) has id `k + 2`, so ids are consecutive integers ≥ 2
in emission order, and each of `lo` and `hi` is smaller than the record's own
id, hence is 0, 1, or the id of a record emitted strictly earlier. -/
theorem c4_ids_postorder (e : Encoded) (use_memo : Bool) (heuristic : String)
    (fuel k : Nat) (hk : k < (runZ fuel e use_memo heuristic).output.length) :
    ((runZ fuel e use_memo heuristic).output.getD k zrec0).id = k + 2 ∧
    ((runZ fuel e use_memo heuristic).output.getD k zrec0).lo < k + 2 ∧
    ((runZ fuel e use_memo heuristic).output.getD k zrec0).hi < k + 2 := by
  obtain ⟨h1, h2, h3, h4, h5⟩ := zinv_runZ fuel e use_memo heuristic
  have hid := h2 k hk
  have hmem : (runZ fuel e use_memo heuristic).output.getD k zrec0 ∈
      (runZ fuel e use_memo heuristic).output := by
    rw [List.getD_eq_getElem _ _ hk]
    exact List.getElem_mem hk
  obtain ⟨hlo, hhi, _⟩ := h3 _ hmem
  exact ⟨hid, hid ▸ hlo, hid ▸ hhi⟩

/-- Witness for C4 at a concrete input (two items, two singleton options). -/
theorem c4_ids_postorder_witness :
    ((runZ 20 ⟨[0, 1], [0, 1, 2], [0, 0], 2, 0⟩ false "mrv").output.getD 0 zrec0).id = 0 + 2 ∧
    ((runZ 20 ⟨[0, 1], [0, 1, 2], [0, 0], 2, 0⟩ false "mrv").output.getD 0 zrec0).lo < 0 + 2 ∧
    ((runZ 20 ⟨[0, 1], [0, 1, 2], [0, 0], 2, 0⟩ false "mrv").output.getD 0 zrec0).hi < 0 + 2 :=
  c4_ids_postorder ⟨[0, 1], [0, 1, 2], [0, 0], 2, 0⟩ false "mrv" 20 0 (by decide)

/-- C5 (amended): every record emitted by `algorithm_z` has `hi ≠ 0` — the
zero-suppression half of the claim; the uniqueness of `(var, lo, hi)` fails
(see the counterexample). -/
theorem c5_zero_suppression (e : Encoded) (use_memo : Bool) (heuristic : String)
    (fuel : Nat) (r : ZRec) (hr : r ∈ (runZ fuel e use_memo heuristic).output) :
    r.hi ≠ 0 :=
  ((zinv_runZ fuel e use_memo heuristic).2.2.1 r hr).2.2

/-- Witness for the amended C5 at a concrete input. -/
theorem c5_zero_suppression_witness : (⟨2, 1, 0, 1⟩ : ZRec).hi ≠ 0 :=
  c5_zero_suppression ⟨[0, 1], [0, 1, 2], [0, 0], 2, 0⟩ false "mrv" 20 ⟨2, 1, 0, 1⟩
    (by decide)

/-! ## Sparse-set restoration (save / undo) -/

/-- A default read after `set`, all cases. -/
theorem getD_set (l : List Nat) (i j v : Nat) :
    (l.set i v).getD j 0 = if i = j ∧ i < l.length then v else l.getD j 0 := by
  by_cases hj : j < l.length
  · have hj' : j < (l.set i v).length := by simpa using hj
    rw [List.getD_eq_getElem _ _ hj', List.getElem_set, List.getD_eq_getElem _ _ hj]
    by_cases hij : i = j
    · subst hij
      simp [hj]
    · simp [hij]
  · rw [List.getD_eq_default _ _ (by simpa using Nat.le_of_not_lt hj),
      List.getD_eq_default _ _ (Nat.le_of_not_lt hj)]
    have hc : ¬ (i = j ∧ i < l.length) := by
      rintro ⟨rfl, hlt⟩
      exact hj hlt
    simp [hc]

/-- A positive default read implies the index is in range. -/
theorem lt_length_of_getD_pos {l : List Nat} {i : Nat} (h : 0 < l.getD i 0) :
    i < l.length := by
  by_contra hc
  rw [List.getD_eq_default _ _ (Nat.le_of_not_lt hc)] at h
  exact Nat.lt_irrefl 0 h

/-- Moving the j-th element to the front while writing `c` at position `j`
permutes `c :: t`. -/
theorem cons_set_perm (t : List Nat) (j : Nat) (hj : j < t.length) (c : Nat) :
    (t.getD j 0 :: t.set j c).Perm (c :: t) := by
  induction t generalizing j with
  | nil => cases hj
  | cons d t' ih =>
      cases j with
      | zero =>
          simp only [List.getD_cons_zero, List.set_cons_zero]
          exact List.Perm.swap _ _ _
      | succ j' =>
          have hj' : j' < t'.length := Nat.lt_of_succ_lt_succ hj
          simp only [List.getD_cons_succ, List.set_cons_succ]
          exact ((List.Perm.swap d (t'.getD j' 0) (t'.set j' c)).trans
            (List.Perm.cons d (ih j' hj'))).trans (List.Perm.swap c d t')

/-- Swapping the values at two in-range positions permutes the list. -/
theorem swap_perm (l : List Nat) (x y : Nat) (hx : x < l.length) (hy : y < l.length) :
    ((l.set x (l.getD y 0)).set y (l.getD x 0)).Perm l := by
  induction l generalizing x y with
  | nil => cases hx
  | cons c t ih =>
      cases x with
      | zero =>
          cases y with
          | zero =>
              simp only [List.getD_cons_zero, List.set_cons_zero]
              exact List.Perm.refl _
          | succ j =>
              have hj : j < t.length := Nat.lt_of_succ_lt_succ hy
              simp only [List.getD_cons_zero, List.getD_cons_succ, List.set_cons_zero,
                List.set_cons_succ]
              exact cons_set_perm t j hj c
      | succ i =>
          cases y with
          | zero =>
              have hi : i < t.length := Nat.lt_of_succ_lt_succ hx
              simp only [List.getD_cons_zero, List.getD_cons_succ, List.set_cons_succ,
                List.set_cons_zero]
              exact cons_set_perm t i hi c
          | succ j =>
              have hi : i < t.length := Nat.lt_of_succ_lt_succ hx
              have hj : j < t.length := Nat.lt_of_succ_lt_succ hy
              simp only [List.getD_cons_succ, List.set_cons_succ]
              exact List.Perm.cons c (ih i j hi hj)

/-- Length of a window that fits in the list. -/
theorem seg_length (l : List Nat) (a b : Nat) (h : a + b ≤ l.length) :
    (seg l a b).length = b := by
  simp only [seg, List.length_take, List.length_drop]
  omega

/-- Reading inside a fitting window. -/
theorem seg_getD (l : List Nat) (a b p : Nat) (h1 : a ≤ p) (h2 : p < a + b)
    (h3 : a + b ≤ l.length) : (seg l a b).getD (p - a) 0 = l.getD p 0 := by
  have hp : p - a < (seg l a b).length := by rw [seg_length l a b h3]; omega
  rw [List.getD_eq_getElem _ _ hp, List.getD_eq_getElem _ _ (by omega : p < l.length)]
  simp only [seg, List.getElem_take, List.getElem_drop]
  congr 1
  omega

/-- Setting a cell outside a window leaves the window unchanged. -/
theorem seg_set_outside (l : List Nat) (a b p v : Nat) (h : p < a ∨ a + b ≤ p) :
    seg (l.set p v) a b = seg l a b := by
  apply List.ext_getElem
  · simp [seg]
  · intro q hq1 hq2
    have hq : q < b := by
      simp only [seg, List.length_take, List.length_drop, List.length_set] at hq1
      omega
    simp only [seg, List.getElem_take, List.getElem_drop, List.getElem_set]
    have hpq : ¬ p = a + q := by omega
    simp [hpq]

/-- Setting a cell inside a fitting window is setting inside the window. -/
theorem seg_set_inside (l : List Nat) (a b p v : Nat) (h1 : a ≤ p) (_h2 : p < a + b)
    (_h3 : a + b ≤ l.length) :
    seg (l.set p v) a b = (seg l a b).set (p - a) v := by
  apply List.ext_getElem
  · simp [seg]
  · intro q hq1 hq2
    have hq : q < b := by
      simp only [seg, List.length_take, List.length_drop, List.length_set] at hq1
      omega
    simp only [seg, List.getElem_take, List.getElem_drop, List.getElem_set]
    by_cases hpq : p = a + q
    · have hpa : p - a = q := by omega
      simp [hpq, hpa]
    · have hpa : ¬ p - a = q := by omega
      simp [hpq, hpa, List.getElem_take, List.getElem_drop]

/-- Swapping two cells inside a fitting window permutes the window. -/
theorem seg_swap_perm (l : List Nat) (a b x y : Nat) (hx1 : a ≤ x) (hx2 : x < a + b)
    (hy1 : a ≤ y) (hy2 : y < a + b) (hlen : a + b ≤ l.length) :
    (seg ((l.set x (l.getD y 0)).set y (l.getD x 0)) a b).Perm (seg l a b) := by
  rw [seg_set_inside _ _ _ _ _ hy1 hy2 (by simpa using hlen),
    seg_set_inside _ _ _ _ _ hx1 hx2 hlen]
  rw [(seg_getD l a b x hx1 hx2 hlen).symm, (seg_getD l a b y hy1 hy2 hlen).symm]
  exact swap_perm (seg l a b) (x - a) (y - a)
    (by rw [seg_length l a b hlen]; omega) (by rw [seg_length l a b hlen]; omega)

/-- The frame holds reflexively at the snapshot itself. -/
theorem mutFrame_refl (m : Mat) : MutFrame m m :=
  ⟨rfl, rfl, rfl, rfl, rfl, fun _ => Nat.le_refl _, Nat.le_refl _,
    fun _ => List.Perm.refl _, List.Perm.refl _⟩

/-- One valid primitive mutation preserves the frame relative to the
snapshot: `remove_node` swaps two cells inside the mutated column's snapshot
window (and touches no other window, by region disjointness), and
`deactivate_item` swaps two cells inside the snapshot active prefix. -/
theorem mutFrame_step (m0 m : Mat) (op : Mut) (hgeo : colGeometry m0)
    (hf : MutFrame m0 m) (hv : validMut m op) : MutFrame m0 (applyMut m op) := by
  obtain ⟨hopt, hstart, hsetlen, hsizelen, hactlen, hsz, hlen, hseg, hact⟩ := hf
  obtain ⟨hg1, hg2, hg3⟩ := hgeo
  cases op with
  | rem k =>
      obtain ⟨hv1, hv2, hv3, hv4⟩ := hv
      dsimp only [applyMut, remove_node]
      have hstart' : m.matrix_start_ptr.getD (m.options.getD k 0) 0 =
          m0.matrix_start_ptr.getD (m.options.getD k 0) 0 := by rw [hstart]
      have hile : m.options.getD k 0 < m0.matrix_size.length := by
        rw [← hsizelen]
        exact lt_length_of_getD_pos (Nat.lt_of_lt_of_le Nat.zero_lt_one hv1)
      have hreg : m0.matrix_start_ptr.getD (m.options.getD k 0) 0 +
          m0.matrix_size.getD (m.options.getD k 0) 0 ≤ m.matrix_set.length := by
        rw [hsetlen]
        exact hg1 _ hile
      have hsub : m.matrix_size.getD (m.options.getD k 0) 0 ≤
          m0.matrix_size.getD (m.options.getD k 0) 0 := hsz _
      have hswap :
          (m.matrix_set.set (m.matrix_loc.getD k 0)
              (m.matrix_set.getD (m.matrix_start_ptr.getD (m.options.getD k 0) 0 +
                m.matrix_size.getD (m.options.getD k 0) 0 - 1) 0)).set
            (m.matrix_start_ptr.getD (m.options.getD k 0) 0 +
              m.matrix_size.getD (m.options.getD k 0) 0 - 1) k =
          (m.matrix_set.set (m.matrix_loc.getD k 0)
              (m.matrix_set.getD (m.matrix_start_ptr.getD (m.options.getD k 0) 0 +
                m.matrix_size.getD (m.options.getD k 0) 0 - 1) 0)).set
            (m.matrix_start_ptr.getD (m.options.getD k 0) 0 +
              m.matrix_size.getD (m.options.getD k 0) 0 - 1)
            (m.matrix_set.getD (m.matrix_loc.getD k 0) 0) := by
        rw [hv4]
      refine ⟨hopt, hstart, ?_, ?_, hactlen, ?_, hlen, ?_, hact⟩
      · simpa using hsetlen
      · simpa using hsizelen
      · intro j
        rw [getD_set]
        split
        · next hcond =>
            obtain ⟨heq, _⟩ := hcond
            subst heq
            exact Nat.le_trans (Nat.sub_le _ _) (hsz _)
        · exact hsz j
      · intro j
        rw [hswap]
        by_cases hji : j = m.options.getD k 0
        · subst hji
          refine (seg_swap_perm m.matrix_set
            (m0.matrix_start_ptr.getD (m.options.getD k 0) 0)
            (m0.matrix_size.getD (m.options.getD k 0) 0)
            (m.matrix_loc.getD k 0)
            (m.matrix_start_ptr.getD (m.options.getD k 0) 0 +
              m.matrix_size.getD (m.options.getD k 0) 0 - 1)
            (by omega) (by omega) (by omega) (by omega) hreg).trans (hseg _)
        · by_cases hjl : j < m0.matrix_size.length
          · have hdisj := hg2 _ hile j hjl (fun h => hji h.symm)
            have houtl : m.matrix_loc.getD k 0 < m0.matrix_start_ptr.getD j 0 ∨
                m0.matrix_start_ptr.getD j 0 + m0.matrix_size.getD j 0 ≤
                  m.matrix_loc.getD k 0 := by omega
            have houte : m.matrix_start_ptr.getD (m.options.getD k 0) 0 +
                  m.matrix_size.getD (m.options.getD k 0) 0 - 1 <
                  m0.matrix_start_ptr.getD j 0 ∨
                m0.matrix_start_ptr.getD j 0 + m0.matrix_size.getD j 0 ≤
                  m.matrix_start_ptr.getD (m.options.getD k 0) 0 +
                  m.matrix_size.getD (m.options.getD k 0) 0 - 1 := by omega
            rw [seg_set_outside _ _ _ _ _ houte, seg_set_outside _ _ _ _ _ houtl]
            exact hseg j
          · have hj0 : m0.matrix_size.getD j 0 = 0 :=
              List.getD_eq_default _ _ (Nat.le_of_not_lt hjl)
            rw [hj0]
            exact List.Perm.refl _
  | deact i =>
      obtain ⟨hv1, hv2, hv3⟩ := hv
      dsimp only [applyMut, deactivate_item, active_insert]
      have hreg : m0.matrix_active_items_len ≤ m.matrix_active_items.length := by
        rw [hactlen]
        exact hg3
      have hswap :
          (m.matrix_active_items.set (m.matrix_active_items_sparse.getD i 0)
              (m.matrix_active_items.getD (m.matrix_active_items_len - 1) 0)).set
            (m.matrix_active_items_len - 1) i =
          (m.matrix_active_items.set (m.matrix_active_items_sparse.getD i 0)
              (m.matrix_active_items.getD (m.matrix_active_items_len - 1) 0)).set
            (m.matrix_active_items_len - 1)
            (m.matrix_active_items.getD (m.matrix_active_items_sparse.getD i 0) 0) := by
        rw [hv3]
      refine ⟨hopt, hstart, hsetlen, hsizelen, ?_, hsz, ?_, hseg, ?_⟩
      · simpa using hactlen
      · dsimp only
        omega
      · dsimp only
        rw [hswap]
        have hsw := seg_swap_perm m.matrix_active_items 0 m0.matrix_active_items_len
          (m.matrix_active_items_sparse.getD i 0) (m.matrix_active_items_len - 1)
          (Nat.zero_le _) (by omega) (Nat.zero_le _) (by omega) (by simpa using hreg)
        have htk : ∀ l : List Nat, seg l 0 m0.matrix_active_items_len =
            l.take m0.matrix_active_items_len := by
          intro l
          simp [seg]
        rw [htk, htk] at hsw
        exact hsw.trans hact

/-- A whole valid mutation sequence keeps the frame. -/
theorem mutFrame_muts (m0 : Mat) (hgeo : colGeometry m0) (ops : List Mut) :
    ∀ m : Mat, MutFrame m0 m → validMuts m ops → MutFrame m0 (applyMuts m ops) := by
  induction ops with
  | nil => intro m hf _; exact hf
  | cons op rest ih =>
      intro m hf hv
      exact ih (applyMut m op) (mutFrame_step m0 m op hgeo hf hv.1) hv.2

/-- C8 counterexample: the substrate arrays are *not* bitwise restored.  On
the two-option problem `[["a","b"],["a","b"]]`, a snapshot followed by the
initial `hide` of item 0 and by `undo` leaves `matrix_set` permuted
(`[0,2,3,1]` instead of `[0,2,1,3]`). -/
theorem c8_not_bitwise_counterexample :
    (undo (hide (initMat ⟨[0, 1, 0, 1], [0, 2, 4], [0, 0, 0, 0], 2, 0⟩) 0 0 true).2
        (save_state (initMat ⟨[0, 1, 0, 1], [0, 2, 4], [0, 0, 0, 0], 2, 0⟩))).matrix_set ≠
      (initMat ⟨[0, 1, 0, 1], [0, 2, 4], [0, 0, 0, 0], 2, 0⟩).matrix_set := by
  decide

/-- C8 (amended): after a snapshot, any sequence of valid `remove_node` /
`deactivate_item` mutations (the primitives through which `cover` and `hide`
act on the substrate), and an `undo` of the snapshot: `matrix_size` and the
active-items length are restored exactly, and the active prefixes — each
item's active column window and the active-items list — are restored as
permutations (hence as sets).  `matrix_set`, `matrix_loc`,
`matrix_active_items` and `matrix_active_items_sparse` need not return
bitwise-identical (see the counterexample). -/
theorem c8_undo_restores_active_windows (m : Mat) (ops : List Mut)
    (hgeo : colGeometry m) (hv : validMuts m ops) :
    (undo (applyMuts m ops) (save_state m)).matrix_size = m.matrix_size ∧
    (undo (applyMuts m ops) (save_state m)).matrix_active_items_len =
      m.matrix_active_items_len ∧
    (∀ i : Nat, (active_options (undo (applyMuts m ops) (save_state m)) i).Perm
      (active_options m i)) ∧
    (activePrefix (undo (applyMuts m ops) (save_state m))).Perm (activePrefix m) := by
  have hf := mutFrame_muts m hgeo ops m (mutFrame_refl m) hv
  obtain ⟨hopt, hstart, hsetlen, hsizelen, hactlen, hsz, hlen, hseg, hact⟩ := hf
  refine ⟨rfl, rfl, ?_, ?_⟩
  · intro i
    have h := hseg i
    simp only [active_options, undo, save_state, seg] at h ⊢
    rw [hstart]
    exact h
  · have h := hact
    simp only [activePrefix, undo, save_state] at h ⊢
    exact h

/-- Witness for the amended C8: on the concrete matrix of
`[["a","b"],["a","b"]]`, removing node 1 (a valid mutation) and undoing
restores item 1's active column window as a permutation. -/
theorem c8_undo_restores_active_windows_witness :
    (active_options
      (undo (applyMuts (initMat ⟨[0, 1, 0, 1], [0, 2, 4], [0, 0, 0, 0], 2, 0⟩) [Mut.rem 1])
        (save_state (initMat ⟨[0, 1, 0, 1], [0, 2, 4], [0, 0, 0, 0], 2, 0⟩))) 1).Perm
      (active_options (initMat ⟨[0, 1, 0, 1], [0, 2, 4], [0, 0, 0, 0], 2, 0⟩) 1) :=
  (c8_undo_restores_active_windows
    (initMat ⟨[0, 1, 0, 1], [0, 2, 4], [0, 0, 0, 0], 2, 0⟩) [Mut.rem 1]
    ⟨by decide, by decide, by decide⟩ ⟨⟨by decide, by decide, by decide, by decide⟩,
      trivial⟩).2.2.1 1

end XCover
